import Mathlib

/-!
Verification of the combat engine in src/models/combat/combat.ts
(the current version of the file, i.e. its second revision, which is the
one containing move_combat_queue / apply_effect / remove_effect).

Shallow embedding notes.

TypeScript numbers are modelled as rationals (ℚ) for hit points, mana and
damage values, and as integers for the remaining-turn counters of active
effects (`remaining_turns` is only ever an integer multiple/decrement in
the engine).  `Infinity`-duration effects are outside this model: every
effect created by apply_effect has a finite `duration * queue.length`
counter.  The truncated remainder Int.tmod matches the sign behaviour of
the TypeScript `%` operator; the engine only ever takes remainders of the
positive counters it created.  `x % 0` is `NaN` in TypeScript and `NaN
=== 0` is false, so the round-boundary test carries an explicit
`n ≠ 0 &&` guard.

Characters are shared mutable objects in TypeScript (the same object is
referenced from a group, the combat queue and any action target), so they
are modelled as a single store `List Character` of plain data, with the
groups and the combat queue holding character ids that are resolved
against the store.

Per the effect contract in the source (effect.types: IEffectTurnActionParams
carries the target only), per-tick and after-end callbacks are modelled as
functions from the resolved target and the character store to a new
character store.  The dynamic capability checks of the source
(instanceOfEffectWithActionPerTurn, instanceOfEffectWithDamage,
instanceOfEffectWithComponents, instanceOfEquipmentWithActions, all
implemented as hasOwnProperty tests) are modelled as `Option.isSome` of
the corresponding optional field.

Per the action contract, an action execution may rewrite character data
and may invoke the two ledger-mutating callbacks exposed on the turn
state (apply_effect / remove_effect); it is modelled as returning a new
character store, a list of ledger operations, and the action result
(a number, a boolean, or undefined).
-/

namespace RpgCombat

/-- A combatant's mutable data (hit points and mana), shared between the
groups and the combat queue via its id. -/
structure Character where
  id : String
  name : String := ""
  current_hp : ℚ
  max_hp : ℚ := 0
  current_mana : ℚ := 0
  max_mana : ℚ := 0
deriving DecidableEq

/-- EEffectType from effect.types. -/
inductive EEffectType
  | STAGGERED
  | BLOCKING
  | BURNING
  | CASTING
deriving DecidableEq

/-- ESpellComponent from spell.types. -/
inductive ESpellComponent
  | SOMATIC
  | VERBAL
deriving DecidableEq

/-- An effect as handed to apply_effect (the IEffect contract plus the
optional capability fields the engine probes for). -/
structure IEffect where
  type : EEffectType
  blocks_action : Bool := false
  duration : Nat := 0
  blocks_somatic : Bool := false
  blocks_verbal : Bool := false
  components : Option (List ESpellComponent) := none
  damage : Option ℚ := none
  turn_action : Option (Option Character → List Character → List Character) := none
  action_after_end : Option (Option Character → List Character → List Character) := none

/-- A record of the effect ledger: the applied effect's fields spread
together with the target id and the tick counter, exactly as
apply_effect pushes `\x7b char_id, remaining_turns, ...effect \x7d`. -/
structure ActiveEffect where
  type : EEffectType
  blocks_action : Bool := false
  duration : Nat := 0
  blocks_somatic : Bool := false
  blocks_verbal : Bool := false
  components : Option (List ESpellComponent) := none
  damage : Option ℚ := none
  turn_action : Option (Option Character → List Character → List Character) := none
  action_after_end : Option (Option Character → List Character → List Character) := none
  char_id : String
  remaining_turns : Int

/-- Spreading an incoming effect into a new ledger record. -/
def IEffect.toActive (e : IEffect) (cid : String) (rem : Int) : ActiveEffect :=
  { type := e.type, blocks_action := e.blocks_action, duration := e.duration
    blocks_somatic := e.blocks_somatic, blocks_verbal := e.blocks_verbal
    components := e.components, damage := e.damage
    turn_action := e.turn_action, action_after_end := e.action_after_end
    char_id := cid, remaining_turns := rem }

/-- EActionType (the members exercised by the repository). -/
inductive EActionType
  | NULL
  | PHYSICAL_ATTACK
  | MAGICAL_ATTACK
  | HEAL
  | HELP
  | DOT
  | USE_ITEM
deriving DecidableEq

/-- The value an action execution returns: a numeric magnitude, a
boolean, or undefined. -/
inductive ActionResult
  | num (value : ℚ)
  | bool (b : Bool)
  | undef
deriving DecidableEq

/-- A ledger mutation an action execution may request through the
turn-state callbacks. -/
inductive LedgerOp
  | applyEff (eff : IEffect) (target_id : String)
  | removeEff (effect_type : EEffectType) (target_id : String)

/-- The IAction contract: a stable id, an optional parent id (child
actions), a type tag, and the execution capability.  Execution receives
the resolved target and reads the character store and the effect ledger
(plus the participant count, through which the turn-state ledger
callbacks operate); it yields the rewritten character store, the ledger
operations it invoked, and its result. -/
structure Action where
  id : String
  parent_action_id : Option String := none
  type : EActionType
  related_skill : Option String := none
  execute : Option Character → List Character → List ActiveEffect → Nat →
    (List Character × List LedgerOp × ActionResult)

/-- An equipped item, optionally exposing actions
(instanceOfEquipmentWithActions probes for the field). -/
structure Equipment where
  eid : String
  available_actions : Option (List Action) := none

/-- The static offering data of one combatant: intrinsic default actions,
equipped items and known spells (each spell already in action form). -/
structure Combatant where
  cid : String
  default_actions : List Action := []
  equipped_equipment : List Equipment := []
  spells : List Action := []

/-- CombatResult. -/
structure CombatResult where
  winner : Nat
deriving DecidableEq

/-- The mutable state of a Combat instance.  group_1, group_2 and
combat_queue hold character ids resolved against `chars`; `roster` holds
the static offering data of each combatant. -/
structure CombatState where
  chars : List Character
  group_1 : List String
  group_2 : List String
  combat_queue : List String
  current_index : Nat
  active_effects : List ActiveEffect
  roster : List Combatant := []
  result : Option CombatResult := none

/-- `get_char_by_id`: find the character of the given id in the combat
queue (resolved against the shared store). -/
def get_char_by_id (s : CombatState) (cid : String) : Option Character :=
  (s.combat_queue.find? (fun q => q == cid)).bind
    (fun q => s.chars.find? (fun c => c.id == q))

/-- The participant at a given queue position, resolved against the
store. -/
def char_at (s : CombatState) (idx : Nat) : Option Character :=
  (s.combat_queue[idx]?).bind (fun cid => s.chars.find? (fun c => c.id == cid))

/-- Whether the participant at a queue position has current_hp > 0. -/
def alive_at (s : CombatState) (idx : Nat) : Bool :=
  match char_at s idx with
  | some c => decide (0 < c.current_hp)
  | none => false

/-- One recorded callback invocation of a ledger tick (ghost
observation: which per-tick / on-expire callbacks fired, in order). -/
inductive TickEvent
  | ticked (t : EEffectType) (cid : String)
  | expired (t : EEffectType) (cid : String)
deriving DecidableEq

/-- The body of update_active_effects: walk the effect records in order,
fire the per-tick callback of a record at a round boundary
(`remaining_turns % queue.length === 0`), decrement its counter, fire
the after-end callback when the counter has just reached zero; thread
the character store through the callbacks and record the fired
callbacks. -/
def tick_pass (queue : List String) (n : Nat) :
    List ActiveEffect → List Character →
    (List Character × List ActiveEffect × List TickEvent)
  | [], cs => (cs, [], [])
  | e :: rest, cs =>
    let effect_target : Option Character :=
      (queue.find? (fun q => q == e.char_id)).bind
        (fun q => cs.find? (fun c => c.id == q))
    let round_start : Bool := n != 0 && Int.tmod e.remaining_turns (n : Int) == 0
    let step1 : List Character × List TickEvent :=
      match e.turn_action with
      | some f =>
        if round_start then (f effect_target cs, [TickEvent.ticked e.type e.char_id])
        else (cs, [])
      | none => (cs, [])
    let e' : ActiveEffect := { e with remaining_turns := e.remaining_turns - 1 }
    let step2 : List Character × List TickEvent :=
      match e.action_after_end with
      | some g =>
        if e'.remaining_turns == 0 then
          (g effect_target step1.1, step1.2 ++ [TickEvent.expired e.type e.char_id])
        else (step1.1, step1.2)
      | none => (step1.1, step1.2)
    let restResult := tick_pass queue n rest step2.1
    (restResult.1, e' :: restResult.2.1, step2.2 ++ restResult.2.2)

/-- update_active_effects with its ghost event log: tick every record
once, then drop every record whose counter is no longer positive. -/
def update_active_effects_ev (s : CombatState) : CombatState × List TickEvent :=
  let r := tick_pass s.combat_queue s.combat_queue.length s.active_effects s.chars
  ({ s with chars := r.1
            active_effects := r.2.1.filter (fun e => decide (0 < e.remaining_turns)) },
   r.2.2)

/-- update_active_effects (combat.ts lines 447-472). -/
def update_active_effects (s : CombatState) : CombatState :=
  (update_active_effects_ev s).1

/-- The merge branch of apply_effect (combat.ts lines 478-497): when an
effect of the same kind is already active on the target, compare damage
per duration when both carry a damage field; the strictly stronger
incoming effect overwrites damage, duration and (when both declare one)
the per-tick callback; in every case the remaining-turn counter is
extended by `incoming.duration * queue.length`. -/
def merge_into (n : Nat) (e : IEffect) (ae : ActiveEffect) : ActiveEffect :=
  let ae1 : ActiveEffect :=
    match ae.damage, e.damage with
    | some da, some de =>
      let active_effect_dmg : ℚ := da / (ae.duration : ℚ)
      let effect_dmg : ℚ := de / (e.duration : ℚ)
      if effect_dmg > active_effect_dmg then
        { ae with damage := e.damage, duration := e.duration
                  turn_action :=
                    match ae.turn_action, e.turn_action with
                    | some _, some g => some g
                    | _, _ => ae.turn_action }
      else ae
    | _, _ => ae
  { ae1 with remaining_turns := ae1.remaining_turns + (e.duration * n : Nat) }

/-- The find-and-merge-or-push phase of apply_effect: the first record of
the same kind on the same target is merged in place; when none exists a
fresh record with counter `duration * queue.length` is appended. -/
def merge_or_push (n : Nat) (e : IEffect) (tid : String) :
    List ActiveEffect → List ActiveEffect
  | [] => [e.toActive tid ((e.duration * n : Nat) : Int)]
  | ae :: rest =>
    if ae.type == e.type && ae.char_id == tid then merge_into n e ae :: rest
    else ae :: merge_or_push n e tid rest

/-- remove_effect (combat.ts lines 519-528): delete the first record
matching kind and target; no-op when absent. -/
def remove_effect_core (t : EEffectType) (cid : String) :
    List ActiveEffect → List ActiveEffect
  | [] => []
  | ae :: rest =>
    if ae.type == t && ae.char_id == cid then rest
    else ae :: remove_effect_core t cid rest

/-- The interruption scan of apply_effect (combat.ts lines 505-516): the
forEach walks the array as it stood right after the merge/push (the
snapshot), while each removal rebinds the live ledger; for every
snapshot record declaring components, if the incoming effect blocks a
component it declares, remove_effect(effect.type, target_id) is invoked
on the live ledger. -/
def interrupt_scan (e : IEffect) (tid : String) :
    List ActiveEffect → List ActiveEffect → List ActiveEffect
  | [], cur => cur
  | ae :: rest, cur =>
    let cur' :=
      match ae.components with
      | some comps =>
        if (comps.contains ESpellComponent.SOMATIC && e.blocks_somatic) ||
           (comps.contains ESpellComponent.VERBAL && e.blocks_verbal) then
          remove_effect_core e.type tid cur
        else cur
      | none => cur
    interrupt_scan e tid rest cur'

/-- apply_effect (combat.ts lines 474-517) at the ledger level, with the
participant count n = combat_queue.length. -/
def apply_effect_core (n : Nat) (e : IEffect) (tid : String)
    (l : List ActiveEffect) : List ActiveEffect :=
  let l' := merge_or_push n e tid l
  interrupt_scan e tid l' l'

/-- apply_effect as a combat-state transition (the turn-state callback). -/
def CombatState.applyEffect (s : CombatState) (e : IEffect) (tid : String) :
    CombatState :=
  { s with active_effects := apply_effect_core s.combat_queue.length e tid s.active_effects }

/-- remove_effect as a combat-state transition (the turn-state callback). -/
def CombatState.removeEffect (s : CombatState) (t : EEffectType) (cid : String) :
    CombatState :=
  { s with active_effects := remove_effect_core t cid s.active_effects }

/-- Total hit points of a group of character ids, read from the shared
store (check_finish reduces `acc + curr.current_hp` over the group). -/
def group_hp_sum (s : CombatState) (g : List String) : ℚ :=
  (g.map (fun i => (((s.chars.find? (fun c => c.id == i)).map Character.current_hp)).getD 0)).sum

/-- check_finish (combat.ts lines 530-543): party 1 depleted first sets
winner 1; otherwise party 2 depleted sets winner 0; otherwise the result
field is left as it is. -/
def check_finish (s : CombatState) : CombatState :=
  let sum_group1 := group_hp_sum s s.group_1
  let sum_group2 := group_hp_sum s s.group_2
  if sum_group1 ≤ 0 then { s with result := some { winner := 1 } }
  else if sum_group2 ≤ 0 then { s with result := some { winner := 0 } }
  else s

/-- The synthetic no-op action offered to an action-blocked participant
(id NULL, type NULL, execute returns true and touches nothing). -/
def null_action : Action :=
  { id := "NULL", type := EActionType.NULL
    execute := fun _ cs _ _ => (cs, [], ActionResult.bool true) }

/-- get_available_actions (combat.ts lines 545-578): a participant under
a blocks_action effect is offered exactly the synthetic no-op; otherwise
the default actions, then every equipped item's actions (items exposing
any), then every known spell. -/
def get_available_actions (s : CombatState) : List Action :=
  match s.combat_queue[s.current_index]? with
  | none => []
  | some aid =>
    if s.active_effects.any (fun eff => eff.char_id == aid && eff.blocks_action) then
      [null_action]
    else
      match s.roster.find? (fun r => r.cid == aid) with
      | none => []
      | some r =>
        (r.equipped_equipment.foldl
          (fun acc equip =>
            match equip.available_actions with
            | some acts => acc ++ acts
            | none => acc)
          r.default_actions) ++ r.spells

/-- One iteration of the move_combat_queue loop: tick the ledger once,
then advance the pointer one position cyclically. -/
def moveStep (s : CombatState) : CombatState :=
  let s1 := update_active_effects s
  { s1 with current_index := (1 + s1.current_index) % s1.combat_queue.length }

/-- move_combat_queue (combat.ts lines 436-445), with fuel standing in
for the unbounded do-while: repeat moveStep until the participant at the
pointer has positive hit points; none models divergence. -/
def move_combat_queue : Nat → CombatState → Option CombatState
  | 0, _ => none
  | fuel + 1, s =>
    let s' := moveStep s
    if alive_at s' s'.current_index then some s'
    else move_combat_queue fuel s'

/-- What act throws: the validation failure, or (model artefact of the
fuel) the divergence of move_combat_queue when no live participant is
ever reached.  The payload carries the combat state as of the throw. -/
inductive ActError
  | actionNotAvailable
  | diverge
deriving DecidableEq

/-- Applying the ledger operations an action execution requested through
the turn-state callbacks. -/
def apply_ops (s : CombatState) : List LedgerOp → CombatState
  | [] => s
  | LedgerOp.applyEff e tid :: rest => apply_ops (s.applyEffect e tid) rest
  | LedgerOp.removeEff t cid :: rest => apply_ops (s.removeEffect t cid) rest

/-- The availability test of act: the chosen action matches an offered
action by direct id or by declaring it as its parent. -/
def action_offered (avail : List Action) (a : Action) : Bool :=
  avail.any (fun av => av.id == a.id ||
    (match a.parent_action_id with
     | some p => av.id == p
     | none => false))

/-- The post-validation body of act: execute the action (rewriting the
character store and applying the requested ledger operations), advance
the queue unless the result is exactly the boolean false, then run the
win check. -/
def act_body (fuel : Nat) (a : Action) (tgt : Option String) (s : CombatState) :
    Except (ActError × CombatState) CombatState :=
  let tchar : Option Character := tgt.bind (fun tid => s.chars.find? (fun c => c.id == tid))
  let ex := a.execute tchar s.chars s.active_effects s.combat_queue.length
  let s1 := apply_ops { s with chars := ex.1 } ex.2.1
  if ex.2.2 == ActionResult.bool false then
    Except.ok (check_finish s1)
  else
    match move_combat_queue fuel s1 with
    | some s2 => Except.ok (check_finish s2)
    | none => Except.error (ActError.diverge, s1)

/-- act (combat.ts lines 385-434): fail with ActionNotAvailable unless
the chosen action matches an offered action by id or by parent id;
otherwise run the body. -/
def act (fuel : Nat) (avail : List Action) (a : Action) (tgt : Option String)
    (s : CombatState) : Except (ActError × CombatState) CombatState :=
  if !(action_offered avail a) then
    Except.error (ActError.actionNotAvailable, s)
  else
    act_body fuel a tgt s

/-- The decision supplied when resuming the combat generator. -/
structure Decision where
  action : Option Action := none
  target : Option String := none

/-- What one resume of the generator produces next: another turn
snapshot, or the terminal combat result. -/
inductive TurnOutcome
  | snapshot
  | finished (r : CombatResult)
deriving DecidableEq

/-- The loop test of _init: a set result ends the combat, otherwise the
next turn snapshot is produced. -/
def outcome_of (s : CombatState) : TurnOutcome :=
  match s.result with
  | some r => TurnOutcome.finished r
  | none => TurnOutcome.snapshot

/-- One resume of the _init generator (combat.ts lines 356-383): the
offered actions are those of the pending snapshot; a decision carrying
an action that is of type NULL or comes with a target is delegated to
act, any other decision leaves the state untouched; then the loop test
decides between the next snapshot and the terminal result.  A thrown
ActionNotAvailable propagates (the error path). -/
def combat_resume (fuel : Nat) (dec : Decision) (s : CombatState) :
    Except (ActError × CombatState) (CombatState × TurnOutcome) :=
  let avail := get_available_actions s
  match dec.action with
  | some a =>
    if a.type == EActionType.NULL || dec.target.isSome then
      match act fuel avail a dec.target s with
      | Except.ok s1 => Except.ok (s1, outcome_of s1)
      | Except.error e => Except.error e
    else Except.ok (s, outcome_of s)
  | none => Except.ok (s, outcome_of s)

/-- Driving the generator with a list of decisions: each resume yields
its outcome; a finished outcome ends the generator (no further body
execution), as does a propagated exception. -/
def combat_run (fuel : Nat) (s : CombatState) : List Decision → List TurnOutcome
  | [] => []
  | d :: ds =>
    match combat_resume fuel d s with
    | Except.error _ => []
    | Except.ok (s1, out) =>
      out ::
        match out with
        | TurnOutcome.finished _ => []
        | TurnOutcome.snapshot => combat_run fuel s1 ds

/-! ## Basic state-projection lemmas -/

theorem check_finish_chars (s : CombatState) : (check_finish s).chars = s.chars := by
  by_cases h1 : group_hp_sum s s.group_1 ≤ 0
  · simp [check_finish, h1]
  · by_cases h2 : group_hp_sum s s.group_2 ≤ 0 <;> simp [check_finish, h1, h2]

theorem check_finish_index (s : CombatState) :
    (check_finish s).current_index = s.current_index := by
  by_cases h1 : group_hp_sum s s.group_1 ≤ 0
  · simp [check_finish, h1]
  · by_cases h2 : group_hp_sum s s.group_2 ≤ 0 <;> simp [check_finish, h1, h2]

theorem check_finish_queue (s : CombatState) :
    (check_finish s).combat_queue = s.combat_queue := by
  by_cases h1 : group_hp_sum s s.group_1 ≤ 0
  · simp [check_finish, h1]
  · by_cases h2 : group_hp_sum s s.group_2 ≤ 0 <;> simp [check_finish, h1, h2]

theorem check_finish_effects (s : CombatState) :
    (check_finish s).active_effects = s.active_effects := by
  by_cases h1 : group_hp_sum s s.group_1 ≤ 0
  · simp [check_finish, h1]
  · by_cases h2 : group_hp_sum s s.group_2 ≤ 0 <;> simp [check_finish, h1, h2]

theorem check_finish_groups (s : CombatState) :
    (check_finish s).group_1 = s.group_1 ∧ (check_finish s).group_2 = s.group_2 := by
  by_cases h1 : group_hp_sum s s.group_1 ≤ 0
  · simp [check_finish, h1]
  · by_cases h2 : group_hp_sum s s.group_2 ≤ 0 <;> simp [check_finish, h1, h2]

theorem group_hp_sum_chars_eq (s t : CombatState) (g : List String)
    (h : s.chars = t.chars) : group_hp_sum s g = group_hp_sum t g := by
  unfold group_hp_sum
  rw [h]

end RpgCombat

namespace RpgCombat

theorem update_active_effects_queue (s : CombatState) :
    (update_active_effects s).combat_queue = s.combat_queue := rfl

theorem update_active_effects_index (s : CombatState) :
    (update_active_effects s).current_index = s.current_index := rfl

theorem update_active_effects_result (s : CombatState) :
    (update_active_effects s).result = s.result := rfl

theorem update_active_effects_groups (s : CombatState) :
    (update_active_effects s).group_1 = s.group_1 ∧
      (update_active_effects s).group_2 = s.group_2 := ⟨rfl, rfl⟩

theorem moveStep_queue (s : CombatState) :
    (moveStep s).combat_queue = s.combat_queue := rfl

theorem moveStep_result (s : CombatState) :
    (moveStep s).result = s.result := rfl

theorem moveStep_groups (s : CombatState) :
    (moveStep s).group_1 = s.group_1 ∧ (moveStep s).group_2 = s.group_2 := ⟨rfl, rfl⟩

theorem moveStep_index (s : CombatState) :
    (moveStep s).current_index = (1 + s.current_index) % s.combat_queue.length := rfl

theorem moveStep_iter_queue (k : Nat) (s : CombatState) :
    (moveStep^[k] s).combat_queue = s.combat_queue := by
  induction k generalizing s with
  | zero => rfl
  | succ n ih => rw [Function.iterate_succ_apply, ih, moveStep_queue]

theorem moveStep_iter_result (k : Nat) (s : CombatState) :
    (moveStep^[k] s).result = s.result := by
  induction k generalizing s with
  | zero => rfl
  | succ n ih => rw [Function.iterate_succ_apply, ih, moveStep_result]

theorem moveStep_iter_groups (k : Nat) (s : CombatState) :
    (moveStep^[k] s).group_1 = s.group_1 ∧ (moveStep^[k] s).group_2 = s.group_2 := by
  induction k generalizing s with
  | zero => exact ⟨rfl, rfl⟩
  | succ n ih =>
    rw [Function.iterate_succ_apply]
    exact ⟨((ih (moveStep s)).1.trans (moveStep_groups s).1),
           ((ih (moveStep s)).2.trans (moveStep_groups s).2)⟩

/-- Characterisation of a terminating move_combat_queue run: the result
is k iterations of tick-then-advance for some positive k, every
intermediate pointer position held a downed participant, the final one a
live participant, and the pointer moved exactly k cyclic positions (one
ledger tick per participant passed over). -/
theorem move_spec (fuel : Nat) (s s' : CombatState)
    (h : move_combat_queue fuel s = some s') :
    ∃ k, 0 < k ∧ s' = moveStep^[k] s ∧
      alive_at s' s'.current_index = true ∧
      (∀ j, 0 < j → j < k →
        alive_at (moveStep^[j] s) (moveStep^[j] s).current_index = false) ∧
      s'.current_index = (s.current_index + k) % s.combat_queue.length := by
  induction fuel generalizing s with
  | zero => simp [move_combat_queue] at h
  | succ n ih =>
    rw [move_combat_queue] at h
    by_cases ha : alive_at (moveStep s) (moveStep s).current_index = true
    · rw [if_pos ha] at h
      refine ⟨1, Nat.one_pos, ?_, ?_, ?_, ?_⟩
      · rw [← Option.some_inj.mp h]
        rfl
      · rw [← Option.some_inj.mp h]
        exact ha
      · intro j hj0 hj1
        omega
      · rw [← Option.some_inj.mp h, moveStep_index, Nat.add_comm 1 s.current_index]
    · rw [if_neg ha] at h
      obtain ⟨k, hk0, hiter, halive, hmid, hidx⟩ := ih (moveStep s) h
      refine ⟨k + 1, Nat.succ_pos k, ?_, halive, ?_, ?_⟩
      · rw [hiter, Function.iterate_succ_apply]
      · intro j hj0 hjk
        match j, hj0 with
        | 1, _ =>
          simpa using (Bool.not_eq_true _).mp ha
        | j + 2, _ =>
          have := hmid (j + 1) (Nat.succ_pos j) (by omega)
          rwa [← Function.iterate_succ_apply] at this
      · rw [hidx, moveStep_index, moveStep_queue, Nat.mod_add_mod]
        congr 1
        omega

/-- When no record declares a callback, a ledger tick leaves the
character store untouched. -/
theorem tick_pass_chars (q : List String) (n : Nat) (l : List ActiveEffect)
    (cs : List Character)
    (hcb : ∀ e ∈ l, e.turn_action.isNone = true ∧ e.action_after_end.isNone = true) :
    (tick_pass q n l cs).1 = cs := by
  induction l generalizing cs with
  | nil => rfl
  | cons e rest ih =>
    have h1 : e.turn_action = none :=
      Option.isNone_iff_eq_none.mp (hcb e (by simp)).1
    have h2 : e.action_after_end = none :=
      Option.isNone_iff_eq_none.mp (hcb e (by simp)).2
    simp only [tick_pass, h1, h2]
    exact ih cs (fun x hx => hcb x (by simp [hx]))

/-- A ledger tick rewrites the record list to the one-step decrement of
every record, independently of the character store. -/
theorem tick_pass_effects (q : List String) (n : Nat) (l : List ActiveEffect) :
    ∀ (cs : List Character),
    (tick_pass q n l cs).2.1 =
      l.map (fun e => { e with remaining_turns := e.remaining_turns - 1 }) := by
  induction l with
  | nil => intro cs; rfl
  | cons e rest ih =>
    intro cs
    simp only [tick_pass, List.map_cons]
    cases hta : e.turn_action <;> cases haa : e.action_after_end <;> simp [ih]

theorem update_effects_eq (s : CombatState) :
    (update_active_effects s).active_effects =
      (s.active_effects.map
        (fun e => { e with remaining_turns := e.remaining_turns - 1 })).filter
        (fun e => decide (0 < e.remaining_turns)) := by
  simp only [update_active_effects, update_active_effects_ev, tick_pass_effects]

theorem update_no_cb (s : CombatState)
    (hcb : ∀ e ∈ s.active_effects,
      e.turn_action.isNone = true ∧ e.action_after_end.isNone = true) :
    ∀ e ∈ (update_active_effects s).active_effects,
      e.turn_action.isNone = true ∧ e.action_after_end.isNone = true := by
  intro e he
  rw [update_effects_eq] at he
  have hmem := (List.mem_filter.mp he).1
  obtain ⟨x, hx, hxe⟩ := List.mem_map.mp hmem
  rw [← hxe]
  simpa using hcb x hx

theorem update_chars_no_cb (s : CombatState)
    (hcb : ∀ e ∈ s.active_effects,
      e.turn_action.isNone = true ∧ e.action_after_end.isNone = true) :
    (update_active_effects s).chars = s.chars := by
  simp only [update_active_effects, update_active_effects_ev]
  exact tick_pass_chars s.combat_queue s.combat_queue.length s.active_effects s.chars hcb

theorem alive_at_congr (s t : CombatState) (idx : Nat)
    (hq : s.combat_queue = t.combat_queue) (hc : s.chars = t.chars) :
    alive_at s idx = alive_at t idx := by
  unfold alive_at char_at
  rw [hq, hc]

/-- When ticks cannot rewrite hit points (no record declares a
callback), move_combat_queue reaches a live participant within the
cyclic distance to it. -/
theorem move_terminates (j : Nat) : ∀ (s : CombatState),
    (∀ e ∈ s.active_effects,
      e.turn_action.isNone = true ∧ e.action_after_end.isNone = true) →
    alive_at s ((s.current_index + 1 + j) % s.combat_queue.length) = true →
    (move_combat_queue (j + 1) s).isSome = true := by
  induction j with
  | zero =>
    intro s hcb halive
    rw [move_combat_queue]
    have hch : (moveStep s).chars = s.chars := update_chars_no_cb s hcb
    have : alive_at (moveStep s) (moveStep s).current_index = true := by
      rw [alive_at_congr (moveStep s) s _ (moveStep_queue s) hch, moveStep_index,
        Nat.add_comm 1 s.current_index]
      simpa using halive
    rw [if_pos this]
    rfl
  | succ m ih =>
    intro s hcb halive
    rw [move_combat_queue]
    by_cases ha : alive_at (moveStep s) (moveStep s).current_index = true
    · rw [if_pos ha]
      rfl
    · rw [if_neg ha]
      have hch : (moveStep s).chars = s.chars := update_chars_no_cb s hcb
      apply ih (moveStep s) (update_no_cb s hcb)
      rw [alive_at_congr (moveStep s) s _ (moveStep_queue s) hch, moveStep_index,
        moveStep_queue]
      rw [show ((1 + s.current_index) % s.combat_queue.length + 1 + m)
          = ((1 + s.current_index) % s.combat_queue.length + (1 + m)) by omega,
        Nat.mod_add_mod,
        show (1 + s.current_index + (1 + m)) = (s.current_index + 1 + (m + 1)) by omega]
      exact halive

theorem apply_ops_proj (ops : List LedgerOp) : ∀ (s : CombatState),
    (apply_ops s ops).chars = s.chars ∧
    (apply_ops s ops).current_index = s.current_index ∧
    (apply_ops s ops).combat_queue = s.combat_queue ∧
    (apply_ops s ops).group_1 = s.group_1 ∧
    (apply_ops s ops).group_2 = s.group_2 ∧
    (apply_ops s ops).result = s.result := by
  induction ops with
  | nil => intro s; exact ⟨rfl, rfl, rfl, rfl, rfl, rfl⟩
  | cons op rest ih =>
    intro s
    cases op with
    | applyEff e tid => exact ih (s.applyEffect e tid)
    | removeEff t cid => exact ih (s.removeEffect t cid)

/-- Claim C10 (implicit tie-break of the win check): when both parties'
summed HP are ≤ 0, party 1's depletion is tested first and alone decides
the outcome, so the result is winner = 1; winner = 0 arises exactly when
party 2's sum is ≤ 0 while party 1's sum is strictly positive. -/
theorem claim_C10_tiebreak (s : CombatState) :
    (group_hp_sum s s.group_1 ≤ 0 → group_hp_sum s s.group_2 ≤ 0 →
      (check_finish s).result = some { winner := 1 }) ∧
    (s.result = none →
      ((check_finish s).result = some { winner := 0 } ↔
        0 < group_hp_sum s s.group_1 ∧ group_hp_sum s s.group_2 ≤ 0)) := by
  constructor
  · intro h1 _
    simp [check_finish, h1]
  · intro h0
    constructor
    · intro h
      by_cases hc1 : group_hp_sum s s.group_1 ≤ 0
      · simp [check_finish, hc1] at h
      · by_cases hc2 : group_hp_sum s s.group_2 ≤ 0
        · exact ⟨lt_of_not_le hc1, hc2⟩
        · simp [check_finish, hc1, hc2, h0] at h
    · rintro ⟨h1, h2⟩
      simp [check_finish, not_le.mpr h1, h2]

/-- Concrete instantiation of the C10 tie-break: a state where both
parties are depleted yields winner = 1. -/
def c10_state : CombatState :=
  { chars := [{ id := "a", current_hp := -2 }, { id := "b", current_hp := 0 }]
    group_1 := ["a"], group_2 := ["b"], combat_queue := ["a", "b"]
    current_index := 0, active_effects := [] }

theorem claim_C10_tiebreak_witness :
    (check_finish c10_state).result = some { winner := 1 } :=
  (claim_C10_tiebreak c10_state).1
    (of_decide_eq_true (by with_unfolding_all rfl))
    (of_decide_eq_true (by with_unfolding_all rfl))

/-- The C2 failing input: an active CASTING effect on character c that
requires the VERBAL component, and an incoming BLOCKING effect applied
to character t that blocks verbal components. -/
def c2_casting : ActiveEffect :=
  { type := EEffectType.CASTING, blocks_action := false, duration := 3
    components := some [ESpellComponent.VERBAL]
    action_after_end := some (fun _ cs => cs)
    char_id := "c", remaining_turns := 6 }

def c2_incoming : IEffect :=
  { type := EEffectType.BLOCKING, blocks_action := false, duration := 1
    blocks_verbal := true }

/-- Claim C2 (code bug): the interruption scan of apply_effect removes
`(incoming.type, target_id)` — the record of the effect that was just
applied — instead of the scanned existing effect whose required
component is blocked.  On the failing input the existing CASTING effect
(requiring a VERBAL component that the incoming effect blocks) survives
the apply unchanged, and the incoming BLOCKING record is the one
deleted, leaving the ledger exactly `[CASTING on c]`. -/
theorem claim_C2_code_eval :
    (apply_effect_core 2 c2_incoming "t" [c2_casting]).map
        (fun e => (e.type, e.char_id, e.remaining_turns))
      = [(EEffectType.CASTING, "c", 6)] := by
  rfl

/-- Folding equipment contributions equals appending the flattened
action lists of the items that expose actions. -/
theorem equip_fold_eq (l : List Equipment) (init : List Action) :
    l.foldl
      (fun acc equip =>
        match equip.available_actions with
        | some acts => acc ++ acts
        | none => acc)
      init
    = init ++ (l.filterMap Equipment.available_actions).flatten := by
  induction l generalizing init with
  | nil => simp
  | cons e rest ih =>
    cases h : e.available_actions with
    | none => simp [List.foldl_cons, h, ih]
    | some acts => simp [List.foldl_cons, h, ih, List.append_assoc]

/-- Claim C9: when the ledger holds a blocks_action effect on the active
participant, offer_actions returns exactly the one synthetic no-op
action (id NULL, type NULL, resolving to true and touching nothing);
otherwise it returns exactly the participant's default actions, the
actions of every equipped item exposing actions, and every known
spell. -/
theorem claim_C9_offer (s : CombatState) (aid : String) (r : Combatant)
    (hq : s.combat_queue[s.current_index]? = some aid)
    (hr : s.roster.find? (fun c => c.cid == aid) = some r) :
    ((∃ eff ∈ s.active_effects, eff.char_id = aid ∧ eff.blocks_action = true) →
      get_available_actions s = [null_action] ∧
        null_action.id = "NULL" ∧ null_action.type = EActionType.NULL ∧
        ∀ t cs l n, null_action.execute t cs l n = (cs, [], ActionResult.bool true)) ∧
    ((¬ ∃ eff ∈ s.active_effects, eff.char_id = aid ∧ eff.blocks_action = true) →
      get_available_actions s =
        r.default_actions ++
          (r.equipped_equipment.filterMap Equipment.available_actions).flatten ++
          r.spells) := by
  have hany : (s.active_effects.any (fun eff => eff.char_id == aid && eff.blocks_action))
      = true ↔ ∃ eff ∈ s.active_effects, eff.char_id = aid ∧ eff.blocks_action = true := by
    rw [List.any_eq_true]
    constructor
    · rintro ⟨eff, hm, hp⟩
      refine ⟨eff, hm, ?_⟩
      simpa using hp
    · rintro ⟨eff, hm, h1, h2⟩
      exact ⟨eff, hm, by simp [h1, h2]⟩
  constructor
  · intro hex
    refine ⟨?_, rfl, rfl, fun t cs l n => rfl⟩
    unfold get_available_actions
    rw [hq]
    simp only [hany.mpr hex, if_pos]
  · intro hnex
    have hfalse : (s.active_effects.any (fun eff => eff.char_id == aid && eff.blocks_action))
        = false := by
      cases hb : s.active_effects.any (fun eff => eff.char_id == aid && eff.blocks_action)
      · rfl
      · exact absurd (hany.mp hb) hnex
    unfold get_available_actions
    rw [hq]
    simp only [hfalse, Bool.false_eq_true, if_false]
    rw [hr]
    simp [equip_fold_eq]

/-- Concrete instantiation of C9: a staggered participant is offered
exactly the synthetic no-op. -/
def c9_state : CombatState :=
  { chars := [{ id := "a", current_hp := 4 }]
    group_1 := ["a"], group_2 := [], combat_queue := ["a"]
    current_index := 0
    active_effects := [{ type := EEffectType.STAGGERED, blocks_action := true
                         duration := 1, char_id := "a", remaining_turns := 1 }]
    roster := [{ cid := "a" }] }

/-- The availability test holds exactly when some offered action matches
by direct id or is declared as the chosen action's parent. -/
theorem action_offered_iff (avail : List Action) (a : Action) :
    action_offered avail a = true ↔
      ∃ av ∈ avail, av.id = a.id ∨ a.parent_action_id = some av.id := by
  unfold action_offered
  rw [List.any_eq_true]
  constructor
  · rintro ⟨av, hm, hp⟩
    refine ⟨av, hm, ?_⟩
    cases hpa : a.parent_action_id with
    | none =>
      rw [hpa] at hp
      simp at hp
      exact Or.inl hp
    | some p =>
      rw [hpa] at hp
      simp at hp
      rcases hp with h | h
      · exact Or.inl h
      · exact Or.inr (by rw [h])
  · rintro ⟨av, hm, h | h⟩
    · exact ⟨av, hm, by simp [h]⟩
    · refine ⟨av, hm, ?_⟩
      rw [h]
      simp

/-- The validated body of act never raises ActionNotAvailable. -/
theorem act_body_no_navail (fuel : Nat) (a : Action) (tgt : Option String)
    (s : CombatState) (es : CombatState) :
    act_body fuel a tgt s ≠ Except.error (ActError.actionNotAvailable, es) := by
  intro h
  simp only [act_body] at h
  split at h
  · exact absurd h (by simp)
  · split at h
    · exact absurd h (by simp)
    · simp at h

/-- Claim C7: validate_and_execute throws ActionNotAvailable exactly
when the chosen action matches no offered action by direct id and no
offered action is declared as its parent; and a throwing call leaves the
combat state untouched (character data including HP and mana, the effect
ledger, and the turn pointer are those of the entry state). -/
theorem claim_C7_not_available (fuel : Nat) (avail : List Action) (a : Action)
    (tgt : Option String) (s : CombatState) :
    ((∃ es, act fuel avail a tgt s =
        Except.error (ActError.actionNotAvailable, es)) ↔
      ¬ ∃ av ∈ avail, av.id = a.id ∨ a.parent_action_id = some av.id) ∧
    (∀ es, act fuel avail a tgt s =
        Except.error (ActError.actionNotAvailable, es) →
      es.chars = s.chars ∧ es.active_effects = s.active_effects ∧
        es.current_index = s.current_index) := by
  by_cases hv : action_offered avail a = true
  · constructor
    · rw [iff_false_intro ((not_not.mpr (action_offered_iff avail a |>.mp hv)))]
      simp only [iff_false]
      rintro ⟨es, hes⟩
      rw [act, hv] at hes
      exact act_body_no_navail fuel a tgt s es (by simpa using hes)
    · intro es hes
      rw [act, hv] at hes
      exact absurd (by simpa using hes) (act_body_no_navail fuel a tgt s es)
  · have hvf : action_offered avail a = false := by
      cases hb : action_offered avail a
      · rfl
      · exact absurd hb hv
    constructor
    · constructor
      · intro _
        exact fun hex => hv ((action_offered_iff avail a).mpr hex)
      · intro _
        exact ⟨s, by rw [act, hvf]; rfl⟩
    · intro es hes
      rw [act, hvf] at hes
      simp only [Bool.not_false, if_true, Except.error.injEq, Prod.mk.injEq] at hes
      rw [← hes.2]
      exact ⟨rfl, rfl, rfl⟩

/-- Concrete instantiation of C7: an action whose id and parent id match
nothing offered makes act throw and leaves the state unchanged. -/
def c7_offered : Action :=
  { id := "SLASH", type := EActionType.PHYSICAL_ATTACK
    execute := fun _ cs _ _ => (cs, [], ActionResult.num 10) }

def c7_chosen : Action :=
  { id := "FIREBALL", parent_action_id := some "SPELLBOOK"
    type := EActionType.MAGICAL_ATTACK
    execute := fun _ cs _ _ => (cs, [], ActionResult.num 3) }

def c7_state : CombatState :=
  { chars := [{ id := "a", current_hp := 9 }, { id := "b", current_hp := 7 }]
    group_1 := ["a"], group_2 := ["b"], combat_queue := ["a", "b"]
    current_index := 0, active_effects := [] }

theorem claim_C7_not_available_witness :
    (∃ es, act 5 [c7_offered] c7_chosen (some "b") c7_state =
      Except.error (ActError.actionNotAvailable, es)) :=
  (claim_C7_not_available 5 [c7_offered] c7_chosen (some "b") c7_state).1.mpr
    (by
      rintro ⟨av, hm, h | h⟩ <;>
        (simp only [List.mem_singleton] at hm; subst hm) <;>
        simp [c7_offered, c7_chosen] at h)

/-- Claim C5: a terminating advance is k repetitions of
tick-then-advance for a positive k: the ledger is ticked exactly once
per participant passed over (the downed, skipped ones included), every
intermediate pointer position held a participant with current_hp ≤ 0,
the selected participant has current_hp > 0, and the pointer moved k
cyclic positions; moreover, from any state whose ticks cannot rewrite
hit points and in which some queue position ahead holds a live
participant, the advance does terminate. -/
theorem claim_C5_advance :
    (∀ fuel s s', move_combat_queue fuel s = some s' →
      ∃ k, 0 < k ∧ s' = moveStep^[k] s ∧
        alive_at s' s'.current_index = true ∧
        (∀ j, 0 < j → j < k →
          alive_at (moveStep^[j] s) (moveStep^[j] s).current_index = false) ∧
        s'.current_index = (s.current_index + k) % s.combat_queue.length) ∧
    (∀ s j, (∀ e ∈ s.active_effects,
        e.turn_action.isNone = true ∧ e.action_after_end.isNone = true) →
      alive_at s ((s.current_index + 1 + j) % s.combat_queue.length) = true →
      (move_combat_queue (j + 1) s).isSome = true) :=
  ⟨move_spec, fun s j h1 h2 => move_terminates j s h1 h2⟩

/-- Concrete instantiation of C5: with the next queue member downed, the
advance lands on the member after it. -/
def c5_state : CombatState :=
  { chars := [{ id := "a", current_hp := 5 }, { id := "b", current_hp := 0 },
              { id := "c", current_hp := 7 }]
    group_1 := ["a", "b"], group_2 := ["c"], combat_queue := ["a", "b", "c"]
    current_index := 0, active_effects := [] }

def c5_post : CombatState :=
  match move_combat_queue 10 c5_state with
  | some t => t
  | none => c5_state

theorem claim_C5_advance_witness :
    ∃ k, 0 < k ∧ c5_post = moveStep^[k] c5_state ∧
      alive_at c5_post c5_post.current_index = true ∧
      (∀ j, 0 < j → j < k →
        alive_at (moveStep^[j] c5_state) (moveStep^[j] c5_state).current_index = false) ∧
      c5_post.current_index = (c5_state.current_index + k) % c5_state.combat_queue.length :=
  claim_C5_advance.1 10 c5_state c5_post (by with_unfolding_all rfl)

/-- Claim C1: when the executed action's result is exactly the boolean
false, act leaves the active-participant pointer (and the fixed queue)
unchanged, so the same participant acts again; any other result advances
the pointer cyclically by the positive number of participants passed
over, landing on a live participant. -/
theorem claim_C1_turn_repeat (fuel : Nat) (avail : List Action) (a : Action)
    (tgt : Option String) (s s' : CombatState)
    (hok : act fuel avail a tgt s = Except.ok s') :
    ((a.execute (tgt.bind (fun tid => s.chars.find? (fun c => c.id == tid)))
        s.chars s.active_effects s.combat_queue.length).2.2 = ActionResult.bool false →
      s'.current_index = s.current_index ∧ s'.combat_queue = s.combat_queue) ∧
    ((a.execute (tgt.bind (fun tid => s.chars.find? (fun c => c.id == tid)))
        s.chars s.active_effects s.combat_queue.length).2.2 ≠ ActionResult.bool false →
      ∃ k, 0 < k ∧ s'.current_index = (s.current_index + k) % s.combat_queue.length ∧
        alive_at s' s'.current_index = true ∧ s'.combat_queue = s.combat_queue) := by
  rw [act] at hok
  by_cases hv : action_offered avail a = true
  · rw [hv] at hok
    simp only [Bool.not_true, Bool.false_eq_true, if_false] at hok
    simp only [act_body] at hok
    split at hok
    · rename_i hbeq
      have hres : (a.execute (tgt.bind (fun tid => s.chars.find? (fun c => c.id == tid)))
          s.chars s.active_effects s.combat_queue.length).2.2 = ActionResult.bool false := by
        simpa using hbeq
      have hs' : s' = check_finish (apply_ops
          { s with chars := (a.execute (tgt.bind (fun tid => s.chars.find? (fun c => c.id == tid)))
              s.chars s.active_effects s.combat_queue.length).1 }
          (a.execute (tgt.bind (fun tid => s.chars.find? (fun c => c.id == tid)))
              s.chars s.active_effects s.combat_queue.length).2.1) :=
        (Except.ok.inj hok).symm
      constructor
      · intro _
        subst hs'
        rw [check_finish_index, check_finish_queue]
        exact ⟨(apply_ops_proj _ _).2.1, (apply_ops_proj _ _).2.2.1⟩
      · intro hne
        exact absurd hres hne
    · rename_i hbeq
      have hres : ¬ (a.execute (tgt.bind (fun tid => s.chars.find? (fun c => c.id == tid)))
          s.chars s.active_effects s.combat_queue.length).2.2 = ActionResult.bool false := by
        simpa using hbeq
      constructor
      · intro h
        exact absurd h hres
      · intro _
        split at hok
        · rename_i s2 hmove
          have hs' : s' = check_finish s2 := (Except.ok.inj hok).symm
          obtain ⟨k, hk0, hiter, halive, _, hidx⟩ := move_spec fuel _ s2 hmove
          refine ⟨k, hk0, ?_, ?_, ?_⟩
          · subst hs'
            rw [check_finish_index, hidx, (apply_ops_proj _ _).2.1,
              (apply_ops_proj _ _).2.2.1]
          · subst hs'
            rw [alive_at_congr (check_finish s2) s2 _ (check_finish_queue s2)
              (check_finish_chars s2), check_finish_index]
            exact halive
          · subst hs'
            rw [check_finish_queue, hiter, moveStep_iter_queue,
              (apply_ops_proj _ _).2.2.1]
        · exact absurd hok (by simp)
  · have hvf : action_offered avail a = false := by
      cases hb : action_offered avail a
      · rfl
      · exact absurd hb hv
    rw [hvf] at hok
    exact absurd hok (by simp)

/-- Concrete instantiation of C1, false branch: a sub-menu action whose
result is the boolean false leaves the pointer at the same
participant. -/
def c1_menu_action : Action :=
  { id := "MENU", type := EActionType.USE_ITEM
    execute := fun _ cs _ _ => (cs, [], ActionResult.bool false) }

def c1_hit_action : Action :=
  { id := "HIT", type := EActionType.PHYSICAL_ATTACK
    execute := fun _ cs _ _ => (cs, [], ActionResult.num 2) }

def c1_state : CombatState :=
  { chars := [{ id := "a", current_hp := 9 }, { id := "b", current_hp := 7 }]
    group_1 := ["a"], group_2 := ["b"], combat_queue := ["a", "b"]
    current_index := 0, active_effects := [] }

def c1_post_menu : CombatState :=
  match act 5 [c1_menu_action] c1_menu_action (some "b") c1_state with
  | Except.ok t => t
  | Except.error e => e.2

def c1_post_hit : CombatState :=
  match act 5 [c1_hit_action] c1_hit_action (some "b") c1_state with
  | Except.ok t => t
  | Except.error e => e.2

theorem claim_C1_turn_repeat_witness :
    (c1_post_menu.current_index = c1_state.current_index ∧
      c1_post_menu.combat_queue = c1_state.combat_queue) ∧
    (∃ k, 0 < k ∧
      c1_post_hit.current_index = (c1_state.current_index + k) % c1_state.combat_queue.length ∧
      alive_at c1_post_hit c1_post_hit.current_index = true ∧
      c1_post_hit.combat_queue = c1_state.combat_queue) :=
  ⟨(claim_C1_turn_repeat 5 [c1_menu_action] c1_menu_action (some "b") c1_state
      c1_post_menu (by with_unfolding_all rfl)).1 rfl,
   (claim_C1_turn_repeat 5 [c1_hit_action] c1_hit_action (some "b") c1_state
      c1_post_hit (by with_unfolding_all rfl)).2 (by simp [c1_hit_action])⟩

theorem claim_C9_offer_witness :
    get_available_actions c9_state = [null_action] :=
  ((claim_C9_offer c9_state "a" { cid := "a" } rfl rfl).1
    ⟨{ type := EEffectType.STAGGERED, blocks_action := true
       duration := 1, char_id := "a", remaining_turns := 1 },
      by simp [c9_state], rfl, rfl⟩).1

/-- An incoming effect that blocks no component leaves the interruption
scan inert. -/
theorem interrupt_scan_no_blocks (e : IEffect) (tid : String)
    (hbs : e.blocks_somatic = false) (hbv : e.blocks_verbal = false)
    (snap : List ActiveEffect) : ∀ (cur : List ActiveEffect),
    interrupt_scan e tid snap cur = cur := by
  induction snap with
  | nil => intro cur; rfl
  | cons ae rest ih =>
    intro cur
    cases hc : ae.components with
    | none =>
      simp only [interrupt_scan, hc]
      exact ih cur
    | some comps =>
      simp only [interrupt_scan, hc, hbs, hbv, Bool.and_false, Bool.or_self,
        Bool.false_eq_true, if_false]
      exact ih cur

/-- merge_or_push merges in place at the first matching position. -/
theorem merge_or_push_found (n : Nat) (e : IEffect) (tid : String)
    (l2 : List ActiveEffect) (ae : ActiveEffect)
    (hk : ae.type = e.type ∧ ae.char_id = tid) :
    ∀ (l1 : List ActiveEffect),
    (∀ b ∈ l1, ¬(b.type = e.type ∧ b.char_id = tid)) →
    merge_or_push n e tid (l1 ++ ae :: l2) = l1 ++ merge_into n e ae :: l2 := by
  intro l1
  induction l1 with
  | nil =>
    intro _
    simp only [List.nil_append, merge_or_push]
    rw [if_pos (by simp [hk.1, hk.2])]
  | cons b rest ih =>
    intro hl1
    simp only [List.cons_append, merge_or_push, List.append_eq]
    rw [if_neg ?_]
    · rw [ih (fun x hx => hl1 x (List.mem_cons_of_mem b hx))]
    · intro hcond
      have hb := hl1 b (List.mem_cons_self b rest)
      simp only [Bool.and_eq_true, beq_iff_eq] at hcond
      exact hb ⟨hcond.1, hcond.2⟩

/-- Field-level description of the in-place merge. -/
theorem merge_into_fields (n : Nat) (e : IEffect) (ae : ActiveEffect) (da de : ℚ)
    (hda : ae.damage = some da) (hde : e.damage = some de) :
    (merge_into n e ae).remaining_turns = ae.remaining_turns + (e.duration * n : Nat) ∧
    (merge_into n e ae).type = ae.type ∧
    (merge_into n e ae).char_id = ae.char_id ∧
    (de / (e.duration : ℚ) > da / (ae.duration : ℚ) →
      (merge_into n e ae).damage = e.damage ∧
      (merge_into n e ae).duration = e.duration ∧
      ((merge_into n e ae).turn_action =
        match ae.turn_action, e.turn_action with
        | some _, some g => some g
        | _, _ => ae.turn_action)) ∧
    (¬(de / (e.duration : ℚ) > da / (ae.duration : ℚ)) →
      (merge_into n e ae).damage = ae.damage ∧
      (merge_into n e ae).duration = ae.duration ∧
      (merge_into n e ae).turn_action = ae.turn_action) := by
  unfold merge_into
  rw [hda, hde]
  dsimp only
  by_cases hr : de / (e.duration : ℚ) > da / (ae.duration : ℚ)
  · rw [if_pos hr]
    exact ⟨rfl, rfl, rfl, fun _ => ⟨rfl, rfl, rfl⟩, fun h => absurd hr h⟩
  · rw [if_neg hr]
    exact ⟨rfl, rfl, rfl, fun h => absurd h hr, fun _ => ⟨hda, rfl, rfl⟩⟩

/-- Claim C4 (amended): merging an incoming damage-carrying effect into
the existing damage-carrying record of the same kind on the same target
overwrites damage and duration exactly when the incoming
damage-per-duration rate is strictly greater; the per-tick callback is
overwritten only when both records declare one (otherwise the existing
record's callback, possibly absent, is kept); and in every merge case
remaining_turns is extended by incoming.duration times the participant
count, never replaced. -/
theorem claim_C4_amended (n : Nat) (e : IEffect) (tid : String)
    (l1 l2 : List ActiveEffect) (ae : ActiveEffect) (da de : ℚ)
    (hk : ae.type = e.type ∧ ae.char_id = tid)
    (hl1 : ∀ b ∈ l1, ¬(b.type = e.type ∧ b.char_id = tid))
    (hda : ae.damage = some da) (hde : e.damage = some de)
    (hbs : e.blocks_somatic = false) (hbv : e.blocks_verbal = false) :
    ∃ m, apply_effect_core n e tid (l1 ++ ae :: l2) = l1 ++ m :: l2 ∧
      m.remaining_turns = ae.remaining_turns + (e.duration * n : Nat) ∧
      m.type = ae.type ∧ m.char_id = ae.char_id ∧
      (de / (e.duration : ℚ) > da / (ae.duration : ℚ) →
        m.damage = e.damage ∧ m.duration = e.duration ∧
        (ae.turn_action.isSome = true → e.turn_action.isSome = true →
          m.turn_action = e.turn_action) ∧
        (ae.turn_action.isSome = false ∨ e.turn_action.isSome = false →
          m.turn_action = ae.turn_action)) ∧
      (¬(de / (e.duration : ℚ) > da / (ae.duration : ℚ)) →
        m.damage = ae.damage ∧ m.duration = ae.duration ∧
        m.turn_action = ae.turn_action) := by
  refine ⟨merge_into n e ae, ?_, ?_⟩
  · unfold apply_effect_core
    rw [merge_or_push_found n e tid l2 ae hk l1 hl1,
      interrupt_scan_no_blocks e tid hbs hbv _]
  · obtain ⟨h1, h2, h3, h4, h5⟩ := merge_into_fields n e ae da de hda hde
    refine ⟨h1, h2, h3, ?_, h5⟩
    intro hr
    obtain ⟨hd, hdur, hta⟩ := h4 hr
    refine ⟨hd, hdur, ?_, ?_⟩
    · intro hae he
      rw [hta]
      obtain ⟨x, hx⟩ := Option.isSome_iff_exists.mp hae
      obtain ⟨y, hy⟩ := Option.isSome_iff_exists.mp he
      rw [hx, hy]
    · intro hor
      rw [hta]
      rcases hor with h | h
      · have hnone : ae.turn_action = none := Option.not_isSome_iff_eq_none.mp (by simp [h])
        rw [hnone]
      · have hnone : e.turn_action = none := Option.not_isSome_iff_eq_none.mp (by simp [h])
        rw [hnone]
        cases ae.turn_action <;> rfl

/-- The C4 counterexample input: an existing damage record carrying a
per-tick callback and a strictly stronger incoming effect that carries
none. -/
def c4_existing : ActiveEffect :=
  { type := EEffectType.BURNING, duration := 2, damage := some 2
    turn_action := some (fun _ cs => cs), char_id := "t", remaining_turns := 4 }

def c4_incoming : IEffect :=
  { type := EEffectType.BURNING, duration := 2, damage := some 10 }

/-- Claim C4, as stated, is false at this input: the incoming rate
(10/2) is strictly greater than the existing one (2/2), so the claim
requires the existing record's per-tick callback to be overwritten by
the incoming effect's — the incoming effect declares none — yet the
merged record still carries the old callback (the code guards the
overwrite on both sides declaring one).  Damage, duration and the
counter extension (4 + 2·2 = 8) do take place. -/
theorem claim_C4_counterexample :
    ((c4_incoming.damage.getD 0) / (c4_incoming.duration : ℚ) >
      (c4_existing.damage.getD 0) / (c4_existing.duration : ℚ)) ∧
    c4_incoming.turn_action.isSome = false ∧
    (apply_effect_core 2 c4_incoming "t" [c4_existing]).map
      (fun x => (x.turn_action.isSome, x.damage, x.duration, x.remaining_turns))
      = [(true, some 10, 2, 8)] :=
  ⟨by norm_num [c4_incoming, c4_existing], rfl, by with_unfolding_all rfl⟩

/-- Concrete instantiation of the amended C4 merge description. -/
def c4w_existing : ActiveEffect :=
  { type := EEffectType.BURNING, duration := 4, damage := some 8
    turn_action := some (fun _ cs => cs), char_id := "t", remaining_turns := 8 }

def c4w_incoming : IEffect :=
  { type := EEffectType.BURNING, duration := 1, damage := some 5
    turn_action := some (fun _ cs => cs) }

theorem claim_C4_amended_witness :
    ∃ m, apply_effect_core 2 c4w_incoming "t" ([] ++ c4w_existing :: []) = [] ++ m :: [] ∧
      m.remaining_turns = c4w_existing.remaining_turns + (c4w_incoming.duration * 2 : Nat) ∧
      m.type = c4w_existing.type ∧ m.char_id = c4w_existing.char_id ∧
      ((5 : ℚ) / (c4w_incoming.duration : ℚ) > (8 : ℚ) / (c4w_existing.duration : ℚ) →
        m.damage = c4w_incoming.damage ∧ m.duration = c4w_incoming.duration ∧
        (c4w_existing.turn_action.isSome = true → c4w_incoming.turn_action.isSome = true →
          m.turn_action = c4w_incoming.turn_action) ∧
        (c4w_existing.turn_action.isSome = false ∨ c4w_incoming.turn_action.isSome = false →
          m.turn_action = c4w_existing.turn_action)) ∧
      (¬((5 : ℚ) / (c4w_incoming.duration : ℚ) > (8 : ℚ) / (c4w_existing.duration : ℚ)) →
        m.damage = c4w_existing.damage ∧ m.duration = c4w_existing.duration ∧
        m.turn_action = c4w_existing.turn_action) :=
  claim_C4_amended 2 c4w_incoming "t" [] [] c4w_existing 8 5
    ⟨rfl, rfl⟩ (by intro b hb; simp at hb) rfl rfl rfl rfl

/-- merge_or_push appends a fresh record when no record matches. -/
theorem merge_or_push_not_found (n : Nat) (e : IEffect) (tid : String) :
    ∀ (l : List ActiveEffect), (∀ b ∈ l, ¬(b.type = e.type ∧ b.char_id = tid)) →
    merge_or_push n e tid l = l ++ [e.toActive tid ((e.duration * n : Nat) : Int)] := by
  intro l
  induction l with
  | nil => intro _; rfl
  | cons b rest ih =>
    intro h
    simp only [merge_or_push, List.cons_append, List.append_eq]
    rw [if_neg ?_, ih (fun x hx => h x (List.mem_cons_of_mem b hx))]
    intro hcond
    simp only [Bool.and_eq_true, beq_iff_eq] at hcond
    exact h b (List.mem_cons_self b rest) ⟨hcond.1, hcond.2⟩

/-- The ghost event log of one ledger tick: a per-tick event for every
record declaring a per-tick callback whose counter sits on a round
boundary, an expiry event for every record declaring an after-end
callback whose counter has just reached zero, in record order. -/
theorem tick_pass_events (q : List String) (n : Nat) :
    ∀ (l : List ActiveEffect) (cs : List Character),
    (tick_pass q n l cs).2.2 = l.flatMap (fun e =>
      (if e.turn_action.isSome = true ∧ (n ≠ 0 ∧ Int.tmod e.remaining_turns (n : Int) = 0)
        then [TickEvent.ticked e.type e.char_id] else []) ++
      (if e.action_after_end.isSome = true ∧ e.remaining_turns = 1
        then [TickEvent.expired e.type e.char_id] else [])) := by
  intro l
  induction l with
  | nil => intro cs; rfl
  | cons e rest ih =>
    intro cs
    simp only [tick_pass, List.flatMap_cons]
    by_cases hrs : (n != 0 && Int.tmod e.remaining_turns (n : Int) == 0) = true
    · have hrs2 : n ≠ 0 ∧ Int.tmod e.remaining_turns (n : Int) = 0 := by
        simpa using hrs
      by_cases hex : e.remaining_turns = 1
      · cases hta : e.turn_action <;> cases haa : e.action_after_end <;>
          simp [hta, haa, hrs, hrs2, hex, ih, Int.sub_eq_zero] <;> (try (split <;> rfl))
      · have hex2 : ¬ (e.remaining_turns - 1 = 0) := fun hc => hex (by omega)
        cases hta : e.turn_action <;> cases haa : e.action_after_end <;>
          simp [hta, haa, hrs, hrs2, hex, hex2, ih, Int.sub_eq_zero]
    · have hrs2 : ¬ (n ≠ 0 ∧ Int.tmod e.remaining_turns (n : Int) = 0) := by
        intro hc
        exact hrs (by simp [hc.1, hc.2])
      have hrsf : (n != 0 && Int.tmod e.remaining_turns (n : Int) == 0) = false := by
        cases hb : (n != 0 && Int.tmod e.remaining_turns (n : Int) == 0)
        · rfl
        · exact absurd hb hrs
      by_cases hex : e.remaining_turns = 1
      · cases hta : e.turn_action <;> cases haa : e.action_after_end <;>
          simp [hta, haa, hrsf, hrs2, hex, ih, Int.sub_eq_zero] <;> (try (split <;> rfl))
      · have hex2 : ¬ (e.remaining_turns - 1 = 0) := fun hc => hex (by omega)
        cases hta : e.turn_action <;> cases haa : e.action_after_end <;>
          simp [hta, haa, hrsf, hrs2, hex, hex2, ih, Int.sub_eq_zero]

/-- The C6 example effect: damage-over-turn, duration 2 rounds, applied
in a 2-participant encounter, so the counter starts at 4. -/
def c6_effect : ActiveEffect :=
  { type := EEffectType.BURNING, duration := 2, damage := some 3
    turn_action := some (fun _ cs => cs), char_id := "t", remaining_turns := 4 }

def c6_state : CombatState :=
  { chars := [{ id := "t", current_hp := 10 }, { id := "u", current_hp := 10 }]
    group_1 := ["t"], group_2 := ["u"], combat_queue := ["t", "u"]
    current_index := 0, active_effects := [c6_effect] }

/-- Claim C6: a freshly applied effect of finite duration d starts its
counter at d times the participant count n; a ledger tick decrements
every counter by exactly one and drops, in that same tick, every record
whose counter is no longer positive; the per-tick callback of a record
fires in a tick exactly when the record declares one and its counter sat
on a round boundary (counter mod n = 0) at the start of the tick, and
the after-end callback exactly when the counter has just reached zero;
in particular the duration-2 effect of a 2-participant encounter starts
at 4, fires its per-tick callback exactly at counter values 4 and 2, and
is gone after 4 ticks. -/
theorem claim_C6_ticks :
    (∀ (n : Nat) (e : IEffect) (tid : String) (l : List ActiveEffect),
      (∀ b ∈ l, ¬(b.type = e.type ∧ b.char_id = tid)) →
      e.blocks_somatic = false → e.blocks_verbal = false →
      ∃ rec, apply_effect_core n e tid l = l ++ [rec] ∧
        rec.remaining_turns = ((e.duration * n : Nat) : Int) ∧
        rec.type = e.type ∧ rec.char_id = tid) ∧
    (∀ s : CombatState, (update_active_effects s).active_effects =
      (s.active_effects.map
        (fun e => { e with remaining_turns := e.remaining_turns - 1 })).filter
        (fun e => decide (0 < e.remaining_turns))) ∧
    (∀ s : CombatState, 0 < s.combat_queue.length →
      (update_active_effects_ev s).2 = s.active_effects.flatMap (fun e =>
        (if e.turn_action.isSome = true ∧
            Int.tmod e.remaining_turns (s.combat_queue.length : Int) = 0
          then [TickEvent.ticked e.type e.char_id] else []) ++
        (if e.action_after_end.isSome = true ∧ e.remaining_turns = 1
          then [TickEvent.expired e.type e.char_id] else []))) ∧
    ((update_active_effects_ev c6_state).2
        = [TickEvent.ticked EEffectType.BURNING "t"] ∧
      ((update_active_effects c6_state).active_effects.map
        (fun e => e.remaining_turns)) = [3] ∧
      (update_active_effects_ev (update_active_effects c6_state)).2 = [] ∧
      (update_active_effects_ev
        (update_active_effects (update_active_effects c6_state))).2
        = [TickEvent.ticked EEffectType.BURNING "t"] ∧
      (update_active_effects_ev (update_active_effects
        (update_active_effects (update_active_effects c6_state)))).2 = [] ∧
      (update_active_effects (update_active_effects
        (update_active_effects (update_active_effects c6_state)))).active_effects
        = []) := by
  refine ⟨?_, ?_, ?_, ?_⟩
  · intro n e tid l hl hbs hbv
    refine ⟨e.toActive tid ((e.duration * n : Nat) : Int), ?_, rfl, rfl, rfl⟩
    unfold apply_effect_core
    rw [merge_or_push_not_found n e tid l hl, interrupt_scan_no_blocks e tid hbs hbv _]
  · exact update_effects_eq
  · intro s hn
    have hne : s.combat_queue.length ≠ 0 := Nat.pos_iff_ne_zero.mp hn
    simp only [update_active_effects_ev]
    rw [tick_pass_events]
    have hfun : (fun (e : ActiveEffect) =>
        (if e.turn_action.isSome = true ∧ (s.combat_queue.length ≠ 0 ∧
            Int.tmod e.remaining_turns (s.combat_queue.length : Int) = 0)
          then [TickEvent.ticked e.type e.char_id] else []) ++
        (if e.action_after_end.isSome = true ∧ e.remaining_turns = 1
          then [TickEvent.expired e.type e.char_id] else []))
        = (fun (e : ActiveEffect) =>
        (if e.turn_action.isSome = true ∧
            Int.tmod e.remaining_turns (s.combat_queue.length : Int) = 0
          then [TickEvent.ticked e.type e.char_id] else []) ++
        (if e.action_after_end.isSome = true ∧ e.remaining_turns = 1
          then [TickEvent.expired e.type e.char_id] else [])) := by
      funext e
      simp [hne]
    rw [hfun]
  · exact ⟨rfl, rfl, rfl, rfl, rfl, rfl⟩

/-- Concrete instantiation of the C6 fresh-application conjunct: a
duration-3 effect applied to an empty ledger in a 2-participant
encounter starts its counter at 6. -/
def c6w_effect : IEffect :=
  { type := EEffectType.BURNING, duration := 3, damage := some 1 }

theorem claim_C6_ticks_witness :
    ∃ rec, apply_effect_core 2 c6w_effect "t" [] = [] ++ [rec] ∧
      rec.remaining_turns = ((c6w_effect.duration * 2 : Nat) : Int) ∧
      rec.type = EEffectType.BURNING ∧ rec.char_id = "t" :=
  claim_C6_ticks.1 2 c6w_effect "t" [] (by intro b hb; simp at hb) rfl rfl

/-- The (kind, target) key of a ledger record. -/
def effect_key (x : ActiveEffect) : EEffectType × String := (x.type, x.char_id)

/-- No two ledger records share a (kind, target) key. -/
def keys_unique (l : List ActiveEffect) : Prop :=
  l.Pairwise (fun a b => effect_key a ≠ effect_key b)

theorem remove_effect_core_sublist (t : EEffectType) (cid : String) :
    ∀ l, List.Sublist (remove_effect_core t cid l) l := by
  intro l
  induction l with
  | nil => exact List.Sublist.refl []
  | cons a rest ih =>
    simp only [remove_effect_core]
    split
    · exact List.sublist_cons_self a rest
    · exact List.Sublist.cons₂ a ih

theorem interrupt_scan_sublist (e : IEffect) (tid : String) :
    ∀ (snap cur : List ActiveEffect), List.Sublist (interrupt_scan e tid snap cur) cur := by
  intro snap
  induction snap with
  | nil => intro cur; exact List.Sublist.refl cur
  | cons ae rest ih =>
    intro cur
    simp only [interrupt_scan]
    cases hc : ae.components with
    | none => exact ih cur
    | some comps =>
      dsimp only
      by_cases hcond : (comps.contains ESpellComponent.SOMATIC && e.blocks_somatic ||
          comps.contains ESpellComponent.VERBAL && e.blocks_verbal) = true
      · rw [if_pos hcond]
        exact (ih _).trans (remove_effect_core_sublist e.type tid cur)
      · rw [if_neg hcond]
        exact ih cur

theorem merge_into_key (n : Nat) (e : IEffect) (ae : ActiveEffect) :
    effect_key (merge_into n e ae) = effect_key ae := by
  unfold merge_into effect_key
  cases hda : ae.damage <;> cases hde : e.damage <;> dsimp only
  all_goals first
    | rfl
    | (split <;> rfl)

/-- Every record produced by merge_or_push either keeps the key of an
input record or carries the incoming (kind, target) key. -/
theorem merge_or_push_mem_key (n : Nat) (e : IEffect) (tid : String) :
    ∀ (l : List ActiveEffect) (x : ActiveEffect), x ∈ merge_or_push n e tid l →
      (∃ y ∈ l, effect_key x = effect_key y) ∨ effect_key x = (e.type, tid) := by
  intro l
  induction l with
  | nil =>
    intro x hx
    simp only [merge_or_push, List.mem_singleton] at hx
    subst hx
    exact Or.inr rfl
  | cons b rest ih =>
    intro x hx
    simp only [merge_or_push] at hx
    split at hx
    · rcases List.mem_cons.mp hx with h | h
      · subst h
        exact Or.inl ⟨b, List.mem_cons_self b rest, merge_into_key n e b⟩
      · exact Or.inl ⟨x, List.mem_cons_of_mem b h, rfl⟩
    · rcases List.mem_cons.mp hx with h | h
      · subst h
        exact Or.inl ⟨x, List.mem_cons_self x rest, rfl⟩
      · rcases ih x h with ⟨y, hy, hk⟩ | hk
        · exact Or.inl ⟨y, List.mem_cons_of_mem b hy, hk⟩
        · exact Or.inr hk

theorem merge_or_push_ku (n : Nat) (e : IEffect) (tid : String) :
    ∀ (l : List ActiveEffect), keys_unique l → keys_unique (merge_or_push n e tid l) := by
  intro l
  induction l with
  | nil => intro _; exact List.pairwise_singleton _ _
  | cons b rest ih =>
    intro hku
    have hb := List.pairwise_cons.mp hku
    simp only [merge_or_push]
    split
    · rename_i hcond
      refine List.pairwise_cons.mpr ⟨?_, hb.2⟩
      intro x hx
      rw [merge_into_key n e b]
      exact hb.1 x hx
    · rename_i hcond
      refine List.pairwise_cons.mpr ⟨?_, ih hb.2⟩
      intro x hx
      rcases merge_or_push_mem_key n e tid rest x hx with ⟨y, hy, hk⟩ | hk
      · rw [hk]
        exact hb.1 y hy
      · rw [hk]
        intro hbk
        apply hcond
        have h1 : b.type = e.type := congrArg Prod.fst hbk
        have h2 : b.char_id = tid := congrArg Prod.snd hbk
        simp [h1, h2]

theorem apply_effect_core_ku (n : Nat) (e : IEffect) (tid : String)
    (l : List ActiveEffect) (hku : keys_unique l) :
    keys_unique (apply_effect_core n e tid l) := by
  unfold apply_effect_core
  exact (merge_or_push_ku n e tid l hku).sublist
    (interrupt_scan_sublist e tid _ _)

theorem remove_effect_core_ku (t : EEffectType) (cid : String)
    (l : List ActiveEffect) (hku : keys_unique l) :
    keys_unique (remove_effect_core t cid l) :=
  hku.sublist (remove_effect_core_sublist t cid l)

theorem update_ku (s : CombatState) (hku : keys_unique s.active_effects) :
    keys_unique (update_active_effects s).active_effects := by
  rw [update_effects_eq]
  unfold keys_unique
  refine List.Pairwise.sublist (List.filter_sublist _) ?_
  rw [List.pairwise_map]
  exact hku

theorem moveStep_iter_ku (k : Nat) : ∀ (s : CombatState),
    keys_unique s.active_effects → keys_unique (moveStep^[k] s).active_effects := by
  induction k with
  | zero => intro s h; exact h
  | succ m ih =>
    intro s h
    rw [Function.iterate_succ_apply]
    exact ih (moveStep s) (update_ku s h)

theorem apply_ops_ku (ops : List LedgerOp) : ∀ (s : CombatState),
    keys_unique s.active_effects → keys_unique (apply_ops s ops).active_effects := by
  induction ops with
  | nil => intro s h; exact h
  | cons op rest ih =>
    intro s h
    cases op with
    | applyEff e tid =>
      exact ih (s.applyEffect e tid) (apply_effect_core_ku _ e tid _ h)
    | removeEff t cid =>
      exact ih (s.removeEffect t cid) (remove_effect_core_ku t cid _ h)

/-- An act that returns is the win check applied to a state whose result
field, party lists and chars-only invariants come from the entry state:
the ledger is rewritten only by the requested ledger operations and by
the queue-advance ticks. -/
theorem act_ok_parts (fuel : Nat) (avail : List Action) (a : Action)
    (tgt : Option String) (s s' : CombatState)
    (hok : act fuel avail a tgt s = Except.ok s') :
    ∃ s2 : CombatState, s' = check_finish s2 ∧ s2.result = s.result ∧
      s2.group_1 = s.group_1 ∧ s2.group_2 = s.group_2 ∧
      (keys_unique s.active_effects → keys_unique s2.active_effects) := by
  rw [act] at hok
  by_cases hv : action_offered avail a = true
  · rw [hv] at hok
    simp only [Bool.not_true, Bool.false_eq_true, if_false] at hok
    simp only [act_body] at hok
    split at hok
    · refine ⟨_, (Except.ok.inj hok).symm, ?_, ?_, ?_, ?_⟩
      · exact (apply_ops_proj _ _).2.2.2.2.2
      · exact (apply_ops_proj _ _).2.2.2.1
      · exact (apply_ops_proj _ _).2.2.2.2.1
      · exact fun h => apply_ops_ku _ _ h
    · split at hok
      · rename_i s2 hmove
        obtain ⟨k, _, hiter, _, _, _⟩ := move_spec fuel _ s2 hmove
        refine ⟨s2, (Except.ok.inj hok).symm, ?_, ?_, ?_, ?_⟩
        · rw [hiter, moveStep_iter_result]
          exact (apply_ops_proj _ _).2.2.2.2.2
        · rw [hiter, (moveStep_iter_groups k _).1]
          exact (apply_ops_proj _ _).2.2.2.1
        · rw [hiter, (moveStep_iter_groups k _).2]
          exact (apply_ops_proj _ _).2.2.2.2.1
        · intro h
          rw [hiter]
          exact moveStep_iter_ku k _ (apply_ops_ku _ _ h)
      · exact absurd hok (by simp)
  · have hvf : action_offered avail a = false := by
      cases hb : action_offered avail a
      · rfl
      · exact absurd hb hv
    rw [hvf] at hok
    exact absurd hok (by simp)

/-- The combat states reachable by the engine: a freshly constructed
encounter (empty ledger), the two turn-state ledger callbacks, and a
resume of the generator. -/
inductive Reachable : CombatState → Prop
  | init (chars : List Character) (g1 g2 queue : List String) (roster : List Combatant) :
      Reachable { chars := chars, group_1 := g1, group_2 := g2, combat_queue := queue,
                  current_index := 0, active_effects := [], roster := roster, result := none }
  | applyStep (s : CombatState) (e : IEffect) (tid : String) :
      Reachable s → Reachable (s.applyEffect e tid)
  | removeStep (s : CombatState) (t : EEffectType) (cid : String) :
      Reachable s → Reachable (s.removeEffect t cid)
  | resumeStep (fuel : Nat) (dec : Decision) (s s' : CombatState) (out : TurnOutcome) :
      Reachable s → combat_resume fuel dec s = Except.ok (s', out) → Reachable s'

theorem resume_ku (fuel : Nat) (dec : Decision) (s s' : CombatState)
    (out : TurnOutcome) (hok : combat_resume fuel dec s = Except.ok (s', out))
    (hku : keys_unique s.active_effects) : keys_unique s'.active_effects := by
  rw [combat_resume] at hok
  cases hd : dec.action with
  | none =>
    simp only [hd, Except.ok.injEq, Prod.mk.injEq] at hok
    rw [← hok.1]
    exact hku
  | some a =>
    simp only [hd] at hok
    by_cases hg : (a.type == EActionType.NULL || dec.target.isSome) = true
    · rw [if_pos hg] at hok
      cases hact : act fuel (get_available_actions s) a dec.target s with
      | ok s1 =>
        simp only [hact, Except.ok.injEq, Prod.mk.injEq] at hok
        obtain ⟨s2, hs2, _, _, _, hkeep⟩ := act_ok_parts fuel _ a dec.target s s1 hact
        rw [← hok.1, hs2, check_finish_effects]
        exact hkeep hku
      | error err =>
        simp only [hact] at hok
        exact absurd hok (by simp)
    · rw [if_neg hg] at hok
      simp only [Except.ok.injEq, Prod.mk.injEq] at hok
      rw [← hok.1]
      exact hku

/-- Claim C3: in every reachable combat state, at most one ledger record
exists per (kind, target) pair; and applying an effect whose kind is
already active on the same target merges in place — the ledger's key
sequence is unchanged, so no second record is pushed. -/
theorem claim_C3_unique_merge :
    (∀ s, Reachable s → keys_unique s.active_effects) ∧
    (∀ (n : Nat) (e : IEffect) (tid : String) (l : List ActiveEffect),
      (∃ ae ∈ l, ae.type = e.type ∧ ae.char_id = tid) →
      (merge_or_push n e tid l).map effect_key = l.map effect_key) := by
  constructor
  · intro s h
    induction h with
    | init chars g1 g2 queue roster => exact List.Pairwise.nil
    | applyStep s e tid _ ih => exact apply_effect_core_ku _ e tid _ ih
    | removeStep s t cid _ ih => exact remove_effect_core_ku t cid _ ih
    | resumeStep fuel dec s s' out _ hok ih => exact resume_ku fuel dec s s' out hok ih
  · intro n e tid l
    induction l with
    | nil => rintro ⟨ae, hae, _⟩; exact absurd hae (List.not_mem_nil ae)
    | cons b rest ih =>
      rintro ⟨ae, hae, hk⟩
      simp only [merge_or_push]
      by_cases hcond : (b.type == e.type && b.char_id == tid) = true
      · rw [if_pos hcond]
        simp only [List.map_cons, merge_into_key n e b]
      · rw [if_neg hcond]
        rcases List.mem_cons.mp hae with h | h
        · exfalso
          subst h
          exact hcond (by simp [hk.1, hk.2])
        · simp only [List.map_cons]
          rw [ih ⟨ae, h, hk⟩]

/-- Concrete instantiation of C3: a state reached by constructing an
encounter and applying two effects of the same kind to the same target
has pairwise-distinct ledger keys, and the second application keeps the
key sequence unchanged. -/
def c3_eff : IEffect :=
  { type := EEffectType.BURNING, duration := 2, damage := some 3 }

def c3_state0 : CombatState :=
  { chars := [{ id := "t", current_hp := 10 }, { id := "u", current_hp := 10 }]
    group_1 := ["t"], group_2 := ["u"], combat_queue := ["t", "u"]
    current_index := 0, active_effects := [], roster := [], result := none }

theorem claim_C3_unique_merge_witness :
    keys_unique ((c3_state0.applyEffect c3_eff "t").applyEffect c3_eff "t").active_effects ∧
    (merge_or_push 2 c3_eff "t" (c3_state0.applyEffect c3_eff "t").active_effects).map effect_key
      = (c3_state0.applyEffect c3_eff "t").active_effects.map effect_key :=
  ⟨claim_C3_unique_merge.1 _
      (Reachable.applyStep _ c3_eff "t"
        (Reachable.applyStep _ c3_eff "t"
          (Reachable.init c3_state0.chars ["t"] ["u"] ["t", "u"] []))),
   claim_C3_unique_merge.2 2 c3_eff "t" _
      ⟨c3_eff.toActive "t" 4,
        by with_unfolding_all exact List.mem_singleton.mpr rfl, rfl, rfl⟩⟩

theorem group_hp_sum_check_finish (t : CombatState) (g : List String) :
    group_hp_sum (check_finish t) g = group_hp_sum t g :=
  group_hp_sum_chars_eq _ _ g (check_finish_chars t)

/-- Inverting a resume that performed the decided action. -/
theorem resume_act_inv (fuel : Nat) (dec : Decision) (s s' : CombatState)
    (out : TurnOutcome) (a : Action) (hd : dec.action = some a)
    (hg : a.type = EActionType.NULL ∨ dec.target.isSome = true)
    (hok : combat_resume fuel dec s = Except.ok (s', out)) :
    ∃ s1, act fuel (get_available_actions s) a dec.target s = Except.ok s1 ∧
      s' = s1 ∧ out = outcome_of s1 := by
  rw [combat_resume] at hok
  simp only [hd] at hok
  have hgb : (a.type == EActionType.NULL || dec.target.isSome) = true := by
    rcases hg with h | h
    · simp [h]
    · simp [h]
  rw [if_pos hgb] at hok
  cases hact : act fuel (get_available_actions s) a dec.target s with
  | ok s1 =>
    simp only [hact, Except.ok.injEq, Prod.mk.injEq] at hok
    exact ⟨s1, rfl, hok.1.symm, hok.2.symm⟩
  | error err =>
    simp only [hact] at hok
    exact absurd hok (by simp)

/-- Claim C8 (amended): after a resume that performed the decided
action, the outcome is terminal exactly when one of the parties' summed
HP is no longer positive — winner 1 whenever party 1's sum is ≤ 0 (party
2's sum may also be ≤ 0), winner 0 when only party 2's is, another
snapshot exactly when both sums are positive; and a run emits nothing
after a finished outcome, so at most one result is produced and it never
changes.  (While a party is already depleted, a resume that performs no
action — malformed decision, or a pre-dead initial encounter — still
yields a snapshot; see the counterexample.) -/
theorem claim_C8_amended :
    (∀ (fuel : Nat) (dec : Decision) (s s' : CombatState) (out : TurnOutcome) (a : Action),
      dec.action = some a →
      (a.type = EActionType.NULL ∨ dec.target.isSome = true) →
      s.result = none →
      combat_resume fuel dec s = Except.ok (s', out) →
      ((out = TurnOutcome.finished { winner := 1 } ↔ group_hp_sum s' s'.group_1 ≤ 0) ∧
       (out = TurnOutcome.finished { winner := 0 } ↔
         (0 < group_hp_sum s' s'.group_1 ∧ group_hp_sum s' s'.group_2 ≤ 0)) ∧
       (out = TurnOutcome.snapshot ↔
         (0 < group_hp_sum s' s'.group_1 ∧ 0 < group_hp_sum s' s'.group_2)))) ∧
    (∀ (fuel : Nat) (s : CombatState) (ds : List Decision)
        (pre post : List TurnOutcome) (r : CombatResult),
      combat_run fuel s ds = pre ++ TurnOutcome.finished r :: post → post = []) := by
  constructor
  · intro fuel dec s s' out a hd hg hres hok
    obtain ⟨s1, hact, hs', hout⟩ := resume_act_inv fuel dec s s' out a hd hg hok
    obtain ⟨s2, hs1, hs2res, hg1, hg2, _⟩ := act_ok_parts fuel _ a dec.target s s1 hact
    have hs2none : s2.result = none := by rw [hs2res, hres]
    have hsum1 : group_hp_sum s' s'.group_1 = group_hp_sum s2 s2.group_1 := by
      rw [hs', hs1, (check_finish_groups s2).1, group_hp_sum_check_finish]
    have hsum2 : group_hp_sum s' s'.group_2 = group_hp_sum s2 s2.group_2 := by
      rw [hs', hs1, (check_finish_groups s2).2, group_hp_sum_check_finish]
    have houtc : out = outcome_of (check_finish s2) := by rw [hout, hs1]
    by_cases hc1 : group_hp_sum s2 s2.group_1 ≤ 0
    · have hr : (check_finish s2).result = some { winner := 1 } := by
        simp [check_finish, hc1]
      have houtval : out = TurnOutcome.finished { winner := 1 } := by
        rw [houtc]
        simp [outcome_of, hr]
      refine ⟨?_, ?_, ?_⟩
      · rw [houtval, hsum1]
        exact iff_of_true rfl hc1
      · rw [houtval, hsum1, hsum2]
        constructor
        · intro h
          exact absurd h (by simp)
        · rintro ⟨h01, _⟩
          exact absurd hc1 (not_le.mpr h01)
      · rw [houtval, hsum1]
        constructor
        · intro h
          exact absurd h (by simp)
        · rintro ⟨h01, _⟩
          exact absurd hc1 (not_le.mpr h01)
    · by_cases hc2 : group_hp_sum s2 s2.group_2 ≤ 0
      · have hr : (check_finish s2).result = some { winner := 0 } := by
          simp [check_finish, hc1, hc2]
        have houtval : out = TurnOutcome.finished { winner := 0 } := by
          rw [houtc]
          simp [outcome_of, hr]
        refine ⟨?_, ?_, ?_⟩
        · rw [houtval, hsum1]
          exact iff_of_false (by simp) hc1
        · rw [houtval, hsum1, hsum2]
          exact iff_of_true rfl ⟨lt_of_not_le hc1, hc2⟩
        · rw [houtval, hsum2]
          constructor
          · intro h
            exact absurd h (by simp)
          · rintro ⟨_, h02⟩
            exact absurd hc2 (not_le.mpr h02)
      · have hr : (check_finish s2).result = none := by
          simp [check_finish, hc1, hc2, hs2none]
        have houtval : out = TurnOutcome.snapshot := by
          rw [houtc]
          simp [outcome_of, hr]
        refine ⟨?_, ?_, ?_⟩
        · rw [houtval, hsum1]
          exact iff_of_false (by simp) hc1
        · rw [houtval, hsum1, hsum2]
          constructor
          · intro h
            exact absurd h (by simp)
          · rintro ⟨_, h02⟩
            exact absurd h02 hc2
        · rw [houtval, hsum1, hsum2]
          exact iff_of_true rfl ⟨lt_of_not_le hc1, lt_of_not_le hc2⟩
  · intro fuel s ds
    induction ds generalizing s with
    | nil =>
      intro pre post r h
      rw [combat_run] at h
      cases pre <;> simp_all
    | cons d rest ih =>
      intro pre post r h
      rw [combat_run] at h
      cases hres : combat_resume fuel d s with
      | error err =>
        rw [hres] at h
        cases pre <;> simp_all
      | ok p =>
        obtain ⟨s1, out⟩ := p
        rw [hres] at h
        dsimp only at h
        cases out with
        | finished r2 =>
          cases pre with
          | nil =>
            simp only [List.nil_append, List.cons.injEq] at h
            exact h.2.symm
          | cons x xs =>
            simp only [List.cons_append, List.cons.injEq] at h
            exact absurd h.2.symm (by cases xs <;> simp)
        | snapshot =>
          cases pre with
          | nil => simp at h
          | cons x xs =>
            simp only [List.cons_append, List.cons.injEq] at h
            exact ih s1 xs post r h.2

/-- The C8 counterexample inputs.  c8_killer is a legal action of the
acting participant that leaves an ally at negative HP and downs the
whole enemy party (the Action contract lets an execution rewrite HP);
c8_dead_state is an encounter constructed with an already-depleted
second party. -/
def c8_killer : Action :=
  { id := "KILL", type := EActionType.PHYSICAL_ATTACK
    execute := fun _ cs _ _ =>
      (cs.map (fun c =>
        if c.id == "b" || c.id == "c" then { c with current_hp := c.current_hp - 20 }
        else c),
       [], ActionResult.num 7) }

def c8_state : CombatState :=
  { chars := [{ id := "a", current_hp := 5 }, { id := "b", current_hp := 3 },
              { id := "c", current_hp := 10 }]
    group_1 := ["a", "b"], group_2 := ["c"], combat_queue := ["a", "b", "c"]
    current_index := 0, active_effects := []
    roster := [{ cid := "a", default_actions := [c8_killer] }] }

def c8_dec : Decision := { action := some c8_killer, target := some "c" }

def c8_dead_state : CombatState :=
  { chars := [{ id := "x", current_hp := 4 }, { id := "y", current_hp := 0 }]
    group_1 := ["x"], group_2 := ["y"], combat_queue := ["x", "y"]
    current_index := 0, active_effects := [] }

def c8_empty_dec : Decision := {}

/-- Claim C8, as stated, is false on two counts.  First, after an action
that leaves both parties' sums ≤ 0 (party 1 at 5-17 = -12, party 2 at
-10), the produced result is winner = 1 although party 2's sum did not
remain positive — no party did.  Second, an encounter whose second party
is already depleted still produces a Turn Snapshot (the engine checks
the win condition only after an executed action), so a snapshot is
produced while a party's sum is ≤ 0 and no result exists. -/
theorem claim_C8_counterexample :
    ((combat_resume 10 c8_dec c8_state).toOption.map
        (fun p => (p.2, decide (group_hp_sum p.1 p.1.group_2 ≤ 0)))
      = some (TurnOutcome.finished { winner := 1 }, true)) ∧
    (combat_resume 5 c8_empty_dec c8_dead_state
        = Except.ok (c8_dead_state, TurnOutcome.snapshot) ∧
      group_hp_sum c8_dead_state c8_dead_state.group_2 ≤ 0 ∧
      c8_dead_state.result = none) :=
  ⟨by with_unfolding_all rfl,
   rfl, of_decide_eq_true (by with_unfolding_all rfl), rfl⟩

/-- Concrete instantiation of the amended C8 step classification, on the
both-parties-depleted action. -/
def c8w_pair : CombatState × TurnOutcome :=
  match combat_resume 10 c8_dec c8_state with
  | Except.ok p => p
  | Except.error e => (e.2, TurnOutcome.snapshot)

theorem claim_C8_amended_witness :
    (c8w_pair.2 = TurnOutcome.finished { winner := 1 } ↔
      group_hp_sum c8w_pair.1 c8w_pair.1.group_1 ≤ 0) ∧
    (c8w_pair.2 = TurnOutcome.finished { winner := 0 } ↔
      (0 < group_hp_sum c8w_pair.1 c8w_pair.1.group_1 ∧
        group_hp_sum c8w_pair.1 c8w_pair.1.group_2 ≤ 0)) ∧
    (c8w_pair.2 = TurnOutcome.snapshot ↔
      (0 < group_hp_sum c8w_pair.1 c8w_pair.1.group_1 ∧
        0 < group_hp_sum c8w_pair.1 c8w_pair.1.group_2)) :=
  claim_C8_amended.1 10 c8_dec c8_state c8w_pair.1 c8w_pair.2 c8_killer
    rfl (Or.inr rfl) rfl (by with_unfolding_all rfl)

end RpgCombat
